import Mathlib

/-!
Verification of the NodeJS-Blockchain security event ledger.

The definitions below are a shallow embedding of the JavaScript sources:
`src/core/block.js`, `src/core/blockchain.js`, `src/server.js`, the three
monitoring agents (file integrity, network ports, local accounts) and the
configuration module.  External collaborators (the SHA-256 digest from the
`crypto` module, `JSON.stringify`, the filesystem walk, `execSync` parsers)
are modelled as explicit parameters or explicit inputs, so every function
here is a pure, executable translation of the corresponding source function.
-/

namespace NodeChain

/-! ## Decimal rendering of naturals

Models the JavaScript template-literal rendering of a non-negative integer
(as in the hash payload string of `Block.calculateHash`).
-/

/-- Maps a decimal digit to its character, as JavaScript number rendering does. -/
def digitChar (d : Nat) : Char :=
  match d with
  | 0 => '0' | 1 => '1' | 2 => '2' | 3 => '3' | 4 => '4'
  | 5 => '5' | 6 => '6' | 7 => '7' | 8 => '8' | 9 => '9'
  | _ => '*'

/-- Little-endian decimal digits of a natural number, with explicit fuel. -/
def toDigitsRev : Nat → Nat → List Nat
  | 0, _ => []
  | f + 1, n => if n < 10 then [n] else n % 10 :: toDigitsRev f (n / 10)

/-- Rendering of a natural number in decimal, most significant digit first;
models the JavaScript rendering of a non-negative integer in a template literal. -/
def natToDec (n : Nat) : String :=
  ⟨((toDigitsRev (n + 1) n).map digitChar).reverse⟩

/-- Value of a little-endian digit list. -/
def ofDigitsRev : List Nat → Nat
  | [] => 0
  | d :: ds => d + 10 * ofDigitsRev ds

/-! ## Configuration (src/config.js) -/

/-- The blockchain configuration object of src/config.js. -/
structure BlockchainConfig where
  difficulty : Nat
  miningReward : Nat
  deriving Repr, DecidableEq

/-- BLOCKCHAIN_CONFIG from src/config.js. -/
def BLOCKCHAIN_CONFIG : BlockchainConfig := { difficulty := 2, miningReward := 50 }

/-- Models the JavaScript string method repeat applied to "0", as used to build
the proof-of-work target in Block.mineBlock. -/
def zeroRun (n : Nat) : String := ⟨List.replicate n '0'⟩

/-- Models the JavaScript string method startsWith. -/
def strStartsWith (s pre : String) : Bool := pre.data.isPrefixOf s.data

/-! ## Block (src/core/block.js)

The block is generic in the type of its data payload, mirroring the untyped
JavaScript `data` field.  The SHA-256 digest of the crypto module is an
external collaborator and is modelled by an explicit hash-function parameter
`H`; `JSON.stringify` is likewise modelled by a serializer parameter `ser`.
-/

structure Block (α : Type) where
  index : Nat
  timestamp : String
  data : α
  previousHash : String
  nonce : Nat
  hash : String
  deriving Repr, DecidableEq

/-- The string concatenated from the block fields in Block.calculateHash:
index, timestamp, JSON.stringify(data), previousHash, nonce. -/
def hashPayload {α : Type} (ser : α → String) (index : Nat) (timestamp : String)
    (data : α) (previousHash : String) (nonce : Nat) : String :=
  natToDec index ++ timestamp ++ ser data ++ previousHash ++ natToDec nonce

/-- Block.calculateHash: the digest of the concatenated field string. -/
def calculateHash {α : Type} (H : String → String) (ser : α → String) (index : Nat)
    (timestamp : String) (data : α) (previousHash : String) (nonce : Nat) : String :=
  H (hashPayload ser index timestamp data previousHash nonce)

/-- The hash of a block recomputed from its own stored fields, as done in
Blockchain.isValid. -/
def recomputeHash {α : Type} (H : String → String) (ser : α → String) (b : Block α) : String :=
  calculateHash H ser b.index b.timestamp b.data b.previousHash b.nonce

/-- The do-while mining loop of Block.mineBlock: increments the nonce and
recomputes the digest until the digest starts with the difficulty target.
The JavaScript loop is unbounded; fuel makes the translation total, with
`none` standing for a run that has not terminated within the fuel bound. -/
def mineLoop {α : Type} (H : String → String) (ser : α → String) (index : Nat)
    (timestamp : String) (data : α) (previousHash : String) :
    Nat → Nat → Option (Nat × String)
  | 0, _ => none
  | fuel + 1, nonce =>
    let nonce1 := nonce + 1
    let h := calculateHash H ser index timestamp data previousHash nonce1
    if strStartsWith h (zeroRun BLOCKCHAIN_CONFIG.difficulty) then some (nonce1, h)
    else mineLoop H ser index timestamp data previousHash fuel nonce1

/-- Block.mineBlock: mines a block on top of previousBlock.  The wall-clock
timestamp is an explicit input. -/
def mineBlock {α : Type} (H : String → String) (ser : α → String) (fuel : Nat)
    (previousBlock : Block α) (timestamp : String) (data : α) : Option (Block α) :=
  match mineLoop H ser (previousBlock.index + 1) timestamp data previousBlock.hash fuel 0 with
  | none => none
  | some (nonce, h) =>
    some { index := previousBlock.index + 1, timestamp := timestamp, data := data,
           previousHash := previousBlock.hash, nonce := nonce, hash := h }

/-! ## Blockchain (src/core/blockchain.js) -/

/-- The check performed for one adjacent pair of blocks inside the loop of
Blockchain.isValid: the stored link must match and the stored hash must equal
the hash recomputed from the stored fields of the current block. -/
def checkPair {α : Type} (H : String → String) (ser : α → String)
    (previous current : Block α) : Bool :=
  (current.previousHash == previous.hash) && (current.hash == recomputeHash H ser current)

/-- The loop of Blockchain.isValid from position 1 onward, given the block at
the previous position. -/
def isValidFrom {α : Type} (H : String → String) (ser : α → String) :
    Block α → List (Block α) → Bool
  | _, [] => true
  | previous, current :: rest =>
    checkPair H ser previous current && isValidFrom H ser current rest

/-- Blockchain.isValid over the stored chain array. -/
def isValid {α : Type} (H : String → String) (ser : α → String) (chain : List (Block α)) : Bool :=
  match chain with
  | [] => true
  | b :: rest => isValidFrom H ser b rest

/-- Blockchain.addBlock: mines a block on top of the latest block and pushes
it onto the chain array. -/
def addBlock {α : Type} (H : String → String) (ser : α → String) (fuel : Nat)
    (timestamp : String) (chain : List (Block α)) (data : α) : Option (List (Block α)) :=
  match chain.getLast? with
  | none => none
  | some previous =>
    match mineBlock H ser fuel previous timestamp data with
    | none => none
    | some b => some (chain ++ [b])

/-- Iterated Blockchain.addBlock from a starting chain: one step per
(timestamp, payload, fuel) triple. -/
def buildChainAux {α : Type} (H : String → String) (ser : α → String) :
    List (Block α) → List (String × α × Nat) → Option (List (Block α))
  | chain, [] => some chain
  | chain, (ts, d, fuel) :: rest =>
    match addBlock H ser fuel ts chain d with
    | none => none
    | some chain1 => buildChainAux H ser chain1 rest

/-- A chain built from a genesis block by a sequence of addBlock calls. -/
def buildChain {α : Type} (H : String → String) (ser : α → String) (g : Block α)
    (steps : List (String × α × Nat)) : Option (List (Block α)) :=
  buildChainAux H ser [g] steps

/-! ## Monitoring agents (src/server.js, fileAgent, networkAgent, accountAgent)

Each agent polls an external collaborator (filesystem walk plus hashing, or
parsed host command output) and diffs the result against a module-level
baseline.  The external snapshot is an explicit input here (with `none` or a
per-file `none` standing for the failure path of the try/catch blocks), and
the baseline is passed and returned explicitly.
-/

/-- A parsed listening-port descriptor as built by getCurrentListeningPorts. -/
structure PortInfo where
  proto : String
  localAddress : String
  port : String
  pid : String
  deriving Repr, DecidableEq

/-- The details object attached to an agent event. -/
inductive AgentDetails where
  | emptyObj
  | filePath (path : String)
  | fileBaseline (path hash : String)
  | fileChange (path oldHash newHash : String)
  | netListening (listening : List PortInfo)
  | netChange (newListening closed : List PortInfo)
  | accBaseline (users admins : List String)
  | accChange (newUsers removedUsers newAdmins removedAdmins : List String)
  deriving Repr, DecidableEq

/-- An event pushed into the pending queue by one of the agents. -/
structure AgentEvent where
  type : String
  source : String
  severity : String
  message : String
  timestamp : String
  details : AgentDetails
  deriving Repr, DecidableEq

/-- Lookup in an insertion-ordered string-keyed map (a JavaScript Map). -/
def mapGet {β : Type} (m : List (String × β)) (k : String) : Option β :=
  match m with
  | [] => none
  | (k1, v) :: rest => if k1 = k then some v else mapGet rest k

/-- Insertion into an insertion-ordered string-keyed map (Map.prototype.set):
updates in place when the key is present, appends otherwise. -/
def mapSet {β : Type} (m : List (String × β)) (k : String) (v : β) : List (String × β) :=
  match m with
  | [] => [(k, v)]
  | (k1, v1) :: rest => if k1 = k then (k, v) :: rest else (k1, v1) :: mapSet rest k v

/-- Membership test on an insertion-ordered string-keyed map (Map.prototype.has). -/
def mapHas {β : Type} (m : List (String × β)) (k : String) : Bool :=
  (mapGet m k).isSome

/-! ### File integrity agent (runFileIntegrityCheck) -/

/-- The error event pushed for an unreadable file. -/
def fileErrorEvent (now path : String) : AgentEvent :=
  { type := "file_integrity_error", source := "file-agent", severity := "high",
    message := "Unable to read file: " ++ path, timestamp := now,
    details := .filePath path }

/-- The baseline event pushed the first time a file path is seen. -/
def fileBaselineEvent (now path hash : String) : AgentEvent :=
  { type := "file_integrity_baseline", source := "file-agent", severity := "info",
    message := "Baseline hash recorded for " ++ path, timestamp := now,
    details := .fileBaseline path hash }

/-- The change event pushed when the hash of a known file differs. -/
def fileChangeEvent (now path oldHash newHash : String) : AgentEvent :=
  { type := "file_integrity_change", source := "file-agent", severity := "high",
    message := "File content changed: " ++ path, timestamp := now,
    details := .fileChange path oldHash newHash }

/-- The per-file body of runFileIntegrityCheck, iterated over the collected
file list.  Each entry pairs a file path with the result of computeFileHash
(`none` for an unreadable file).  Returns the emitted events in order together
with the updated lastFileHashes baseline. -/
def runFileEntries (now : String) :
    List (String × Option String) → List (String × String) →
    List AgentEvent × List (String × String)
  | [], baseline => ([], baseline)
  | (path, none) :: rest, baseline =>
    let out := runFileEntries now rest baseline
    (fileErrorEvent now path :: out.1, out.2)
  | (path, some h) :: rest, baseline =>
    match mapGet baseline path with
    | some previous =>
      if previous = h then runFileEntries now rest baseline
      else
        let out := runFileEntries now rest (mapSet baseline path h)
        (fileChangeEvent now path previous h :: out.1, out.2)
    | none =>
      let out := runFileEntries now rest (mapSet baseline path h)
      (fileBaselineEvent now path h :: out.1, out.2)

/-- runFileIntegrityCheck: the walk over the configured roots yields the file
list `files` (an external input here); the per-file loop diffs each readable
hash against the baseline. -/
def runFileIntegrityCheck (now : String) (files : List (String × Option String))
    (baseline : List (String × String)) : List AgentEvent × List (String × String) :=
  runFileEntries now files baseline

/-! ### Network ports agent (runNetworkCheck) -/

/-- The error event pushed when the netstat snapshot fails. -/
def netErrorEvent (now : String) : AgentEvent :=
  { type := "network_check_error", source := "net-agent", severity := "high",
    message := "Failed to read current listening ports", timestamp := now,
    details := .emptyObj }

/-- The baseline event recorded on the first successful poll. -/
def netBaselineEvent (now : String) (listening : List PortInfo) : AgentEvent :=
  { type := "network_baseline", source := "net-agent", severity := "info",
    message := "Initial listening ports baseline recorded", timestamp := now,
    details := .netListening listening }

/-- The batched change event for added and removed listening ports. -/
def netChangeEvent (now : String) (newListening closed : List PortInfo) : AgentEvent :=
  { type := "network_port_change", source := "net-agent", severity := "medium",
    message := "Changes in listening network ports detected", timestamp := now,
    details := .netChange newListening closed }

/-- runNetworkCheck: `current` is the result of getCurrentListeningPorts
(`none` when the netstat invocation threw).  Returns the emitted events and
the updated lastListeningPorts baseline. -/
def runNetworkCheck (now : String) (current : Option (List (String × PortInfo)))
    (baseline : List (String × PortInfo)) :
    List AgentEvent × List (String × PortInfo) :=
  match current with
  | none => ([netErrorEvent now], baseline)
  | some cur =>
    if baseline.length = 0 then
      ([netBaselineEvent now (cur.map Prod.snd)], cur)
    else
      let newListening := (cur.filter (fun e => !mapHas baseline e.1)).map Prod.snd
      let closed := (baseline.filter (fun e => !mapHas cur e.1)).map Prod.snd
      if newListening.length = 0 ∧ closed.length = 0 then ([], baseline)
      else ([netChangeEvent now newListening closed], cur)

/-! ### Local accounts agent (runAccountCheck) -/

/-- The lastAccounts module-level state: users set and admins set. -/
structure AccountsBaseline where
  users : List String
  admins : List String
  deriving Repr, DecidableEq

/-- The error event pushed when either host command fails. -/
def accErrorEvent (now : String) : AgentEvent :=
  { type := "account_check_error", source := "identity-agent", severity := "high",
    message := "Failed to read local users or administrators", timestamp := now,
    details := .emptyObj }

/-- The baseline event recorded on the first successful poll. -/
def accBaselineEvent (now : String) (users admins : List String) : AgentEvent :=
  { type := "account_baseline", source := "identity-agent", severity := "info",
    message := "Initial local accounts baseline recorded", timestamp := now,
    details := .accBaseline users admins }

/-- The combined change event covering users and admins diffs. -/
def accChangeEvent (now : String)
    (newUsers removedUsers newAdmins removedAdmins : List String) : AgentEvent :=
  { type := "account_membership_change", source := "identity-agent", severity := "high",
    message := "Changes in local users or administrators detected", timestamp := now,
    details := .accChange newUsers removedUsers newAdmins removedAdmins }

/-- runAccountCheck: `users` and `admins` are the results of getLocalUsers and
getLocalAdmins (`none` when the host command threw); the sets are modelled as
lists in iteration order.  Returns the emitted events and the updated
lastAccounts baseline. -/
def runAccountCheck (now : String) (users admins : Option (List String))
    (baseline : AccountsBaseline) : List AgentEvent × AccountsBaseline :=
  match users, admins with
  | some us, some ads =>
    if baseline.users.length = 0 ∧ baseline.admins.length = 0 then
      ([accBaselineEvent now us ads], { users := us, admins := ads })
    else
      let newUsers := us.filter (fun u => !baseline.users.contains u)
      let removedUsers := baseline.users.filter (fun u => !us.contains u)
      let newAdmins := ads.filter (fun a => !baseline.admins.contains a)
      let removedAdmins := baseline.admins.filter (fun a => !ads.contains a)
      if newUsers.length = 0 ∧ removedUsers.length = 0 ∧
          newAdmins.length = 0 ∧ removedAdmins.length = 0 then
        ([], baseline)
      else
        ([accChangeEvent now newUsers removedUsers newAdmins removedAdmins],
         { users := us, admins := ads })
  | _, _ => ([accErrorEvent now], baseline)

/-! ## HTTP intake and sealing (src/server.js) -/

/-- A JSON value as delivered by the express json body parser. -/
inductive JsVal where
  | str (s : String)
  | num (n : Int)
  | boolean (b : Bool)
  | null
  | obj (fields : List (String × JsVal))
  | arr (elems : List JsVal)

/-- Property lookup in the field list of a JSON object. -/
def getFieldList (fields : List (String × JsVal)) (k : String) : Option JsVal :=
  match fields with
  | [] => none
  | (k1, v1) :: rest => if k1 = k then some v1 else getFieldList rest k

/-- Property access on a request body (undefined is `none`). -/
def getField (v : JsVal) (k : String) : Option JsVal :=
  match v with
  | .obj fields => getFieldList fields k
  | _ => none

/-- Models the JavaScript string method trim (whitespace stripped from both
ends). -/
def jsWhitespace (c : Char) : Bool :=
  c = ' ' ∨ c = '\t' ∨ c = '\n' ∨ c = '\r' ∨ c = '\x0b' ∨ c = '\x0c'

def jsTrim (s : String) : String :=
  ⟨((s.data.dropWhile jsWhitespace).reverse.dropWhile jsWhitespace).reverse⟩

/-- A security event as built by the POST /events handler. -/
structure SEvent where
  type : String
  source : String
  severity : String
  message : String
  timestamp : String
  details : JsVal

/-- The data payload of a ledger block: either the fixed genesis object or the
array of pending events mined into the block. -/
inductive LedgerData where
  | genesisMessage
  | events (evs : List SEvent)

/-- The field checks of the validateEvent helper of src/server.js, performed
once the body is known to be a non-null object (in the JavaScript sense, which
includes arrays). -/
def validateEventFields (body : JsVal) : Option String :=
  match getField body "type" with
  | some (.str s) =>
    if jsTrim s = "" then some "Field \"type\" is required and must be a non-empty string"
    else
      match getField body "source" with
      | some (.str src) =>
        if jsTrim src = "" then
          some "Field \"source\" is required and must be a non-empty string"
        else
          match getField body "severity" with
          | none | some .null | some (.str _) =>
            match getField body "message" with
            | none | some .null | some (.str _) =>
              match getField body "details" with
              | none | some .null | some (.obj _) => none
              | some _ => some "Field \"details\", if provided, must be an object"
            | some _ => some "Field \"message\", if provided, must be a string"
          | some _ => some "Field \"severity\", if provided, must be a string"
      | _ => some "Field \"source\" is required and must be a non-empty string"
  | _ => some "Field \"type\" is required and must be a non-empty string"

/-- The validateEvent helper of src/server.js: returns the error message for a
malformed body and `none` for a valid one. -/
def validateEvent (body : JsVal) : Option String :=
  match body with
  | .null => some "Request body must be a JSON object"
  | .str _ => some "Request body must be a JSON object"
  | .num _ => some "Request body must be a JSON object"
  | .boolean _ => some "Request body must be a JSON object"
  | _ => validateEventFields body

/-- String field extraction for a body that passed validation. -/
def bodyStrField (body : JsVal) (k : String) : String :=
  match getField body k with
  | some (.str s) => s
  | _ => ""

/-- Models the nullish coalescing of an optional string field against a
default, for a body that passed validation. -/
def bodyStrFieldOr (body : JsVal) (k dflt : String) : String :=
  match getField body k with
  | some (.str s) => s
  | _ => dflt

/-- Models `req.body.details ?? {}` for a body that passed validation. -/
def bodyDetailsOr (body : JsVal) : JsVal :=
  match getField body "details" with
  | none => .obj []
  | some .null => .obj []
  | some d => d

/-- The in-memory server state: the singleton blockchain and the pending
event queue. -/
structure ServerState where
  chain : List (Block LedgerData)
  pendingEvents : List SEvent

/-- Block.genesis: the fixed genesis block; its stored hash is computed by
the Block constructor from the fixed fields. -/
def genesisBlock (H : String → String) (ser : LedgerData → String) : Block LedgerData :=
  { index := 0, timestamp := "2024-01-01T00:00:00.000Z", data := .genesisMessage,
    previousHash := "0", nonce := 0,
    hash := calculateHash H ser 0 "2024-01-01T00:00:00.000Z" .genesisMessage "0" 0 }

/-- The server state right after `new Blockchain()`: genesis chain and empty
pending queue. -/
def initialServerState (H : String → String) (ser : LedgerData → String) : ServerState :=
  { chain := [genesisBlock H ser], pendingEvents := [] }

/-- The POST /events handler: validates the body, rejects it with a 400 error,
or builds the event with defaulted severity, message and details and appends
it to the pending queue. -/
def postEvents (now : String) (body : JsVal) (st : ServerState) :
    Except String SEvent × ServerState :=
  match validateEvent body with
  | some err => (.error err, st)
  | none =>
    let event : SEvent :=
      { type := bodyStrField body "type", source := bodyStrField body "source",
        severity := bodyStrFieldOr body "severity" "info",
        message := bodyStrFieldOr body "message" "",
        timestamp := now, details := bodyDetailsOr body }
    (.ok event, { st with pendingEvents := st.pendingEvents ++ [event] })

/-- The GET /pending handler result. -/
def listPending (st : ServerState) : Nat × List SEvent :=
  (st.pendingEvents.length, st.pendingEvents)

/-- The POST /mine handler: an error for an empty queue, otherwise mines the
whole queue into a new block and clears the queue.  The outer `none` stands
for a mining loop that has not terminated within the fuel bound. -/
def postMine (H : String → String) (ser : LedgerData → String) (fuel : Nat)
    (now : String) (st : ServerState) :
    Option (Except String (Block LedgerData) × ServerState) :=
  if st.pendingEvents.length = 0 then
    some (.error "No pending events to mine", st)
  else
    match addBlock H ser fuel now st.chain (.events st.pendingEvents) with
    | none => none
    | some chain1 =>
      match chain1.getLast? with
      | none => none
      | some b => some (.ok b, { chain := chain1, pendingEvents := [] })

/-- minePendingEventsIfAny: the timer callback that mines the queue when it is
non-empty and does nothing otherwise. -/
def minePendingEventsIfAny (H : String → String) (ser : LedgerData → String) (fuel : Nat)
    (now : String) (st : ServerState) : Option ServerState :=
  if st.pendingEvents.length = 0 then
    some st
  else
    match addBlock H ser fuel now st.chain (.events st.pendingEvents) with
    | none => none
    | some chain1 => some { chain := chain1, pendingEvents := [] }

/-! ## Monitoring configuration (src/config.js and the setRoots interface) -/

/-- INTEGRITY_CONFIG shape from src/config.js. -/
structure MonitoringConfig where
  intervalMs : Nat
  roots : List String
  excludeDirs : List String
  deriving Repr, DecidableEq

/-- INTEGRITY_CONFIG from src/config.js. -/
def INTEGRITY_CONFIG : MonitoringConfig :=
  { intervalMs := 60000, roots := ["C:\\"],
    excludeDirs := ["node_modules", ".git", ".vscode", "dist", "build", ".vs"] }

/-- Modelled from the spec: the repository ships only the static
INTEGRITY_CONFIG object; the runtime-mutable `setRoots(list)` operation of
the external-interface section has no implementation under src/.  Following
the spec wording, empty or whitespace-only entries are rejected and at least
one non-empty root is required; on rejection the configuration is returned
unchanged together with a validation error message. -/
def setRoots (cfg : MonitoringConfig) (list : List String) :
    MonitoringConfig × Option String :=
  let cleaned := (list.map jsTrim).filter (fun r => r ≠ "")
  if cleaned.length = 0 then
    (cfg, some "at least one non-empty root is required")
  else
    ({ cfg with roots := cleaned }, none)

/-! ## Out-of-band mutation of a stored block

A single stored field of a block is overwritten, as in
`chain.chain[1].data = ...` of the repository test suite.
-/

/-- A single-field overwrite of a stored block. -/
inductive FieldMut (α : Type) where
  | index (n : Nat)
  | timestamp (t : String)
  | data (d : α)
  | previousHash (p : String)
  | nonce (n : Nat)
  | hash (h : String)

/-- Applies a single-field overwrite to a block. -/
def applyMut {α : Type} (b : Block α) : FieldMut α → Block α
  | .index n => { b with index := n }
  | .timestamp t => { b with timestamp := t }
  | .data d => { b with data := d }
  | .previousHash p => { b with previousHash := p }
  | .nonce n => { b with nonce := n }
  | .hash h => { b with hash := h }

/-- The overwritten value differs from the stored one. -/
def mutChanges {α : Type} (b : Block α) : FieldMut α → Prop
  | .index n => n ≠ b.index
  | .timestamp t => t ≠ b.timestamp
  | .data d => d ≠ b.data
  | .previousHash p => p ≠ b.previousHash
  | .nonce n => n ≠ b.nonce
  | .hash h => h ≠ b.hash

/-- The last element of a non-empty chain, given head and tail. -/
def lastOf {α : Type} (p : Block α) : List (Block α) → Block α
  | [] => p
  | x :: rest => lastOf x rest

/-- Keys of the snapshot entries whose file content hash was computed
successfully. -/
def readableKeys (files : List (String × Option String)) : List String :=
  (files.filter (fun e => e.2.isSome)).map Prod.fst

/-! ## Concrete instantiations used by the witnesses -/

/-- A concrete digest function for witnesses: injective, and every output
meets the difficulty-2 target, so mining terminates at the first nonce. -/
def demoH (s : String) : String := "00" ++ s

/-- A concrete genesis block over natural-number payloads. -/
def demoGenesis : Block Nat :=
  { index := 0, timestamp := "genesis-ts", data := 0, previousHash := "0",
    nonce := 0, hash := "h0" }

/-- Two addBlock steps (timestamp, payload, fuel). -/
def demoSteps : List (String × Nat × Nat) := [("t1", 5, 1), ("t2", 7, 1)]

/-- The chain built from the demo genesis by the demo steps. -/
def demoChain : List (Block Nat) :=
  (buildChain demoH natToDec demoGenesis demoSteps).getD []

/-- The demo chain with the data payload of block 1 overwritten. -/
def demoTampered : List (Block Nat) :=
  demoChain.set 1 (applyMut (demoChain.getD 1 demoGenesis) (.data 99))

/-- A block mined directly on top of the demo genesis. -/
def demoMined : Block Nat :=
  (mineBlock demoH natToDec 1 demoGenesis "t1" 5).getD demoGenesis

/-- The demo genesis with every field except the stored hash overwritten. -/
def demoGenesisAltered : Block Nat :=
  { index := 7, timestamp := "other", data := 42, previousHash := "zz",
    nonce := 3, hash := "h0" }

/-- A trivial concrete payload serializer for the server witnesses. -/
def demoSer (_ : LedgerData) : String := "payload"

/-- The intake body of the concrete scenario of claim C7. -/
def demoBody : JsVal :=
  .obj [("type", .str "login_failed"), ("source", .str "auth-service")]

/-- The event the POST /events handler builds from the demo body at a given
wall-clock time: defaulted severity, message and details. -/
def loginEvent (now : String) : SEvent :=
  { type := "login_failed", source := "auth-service", severity := "info",
    message := "", timestamp := now, details := .obj [] }

/-- The fresh server state of the concrete scenario. -/
def demoState0 : ServerState := initialServerState demoH demoSer

/-- The server state after enqueueing the demo event. -/
def demoState1 : ServerState := (postEvents "2024-05-01T00:00:00.000Z" demoBody demoState0).2

/-- The result of sealing the demo state. -/
def demoMineResult : Except String (Block LedgerData) × ServerState :=
  (postMine demoH demoSer 1 "2024-05-01T00:01:00.000Z" demoState1).getD
    (.error "none", demoState1)

/-- A malformed intake body: the source field is missing. -/
def demoBadBody : JsVal := .obj [("type", .str "login_failed")]

/-- A concrete listening-port descriptor. -/
def demoPortOld : PortInfo :=
  { proto := "TCP", localAddress := "0.0.0.0", port := "80", pid := "100" }

/-- The same listening port with a different owning process id. -/
def demoPortNew : PortInfo :=
  { proto := "TCP", localAddress := "0.0.0.0", port := "80", pid := "200" }

/-- A second listening port for the witnesses. -/
def demoPortExtra : PortInfo :=
  { proto := "UDP", localAddress := "127.0.0.1", port := "53", pid := "7" }

/-! ## Lemmas: decimal rendering is injective -/

theorem ofDigitsRev_toDigitsRev (f : Nat) :
    ∀ n : Nat, n < 10 ^ f → ofDigitsRev (toDigitsRev f n) = n := by
  induction f with
  | zero =>
    intro n hn
    simp only [pow_zero, Nat.lt_one_iff] at hn
    subst hn
    rfl
  | succ f ih =>
    intro n hn
    by_cases h10 : n < 10
    · simp [toDigitsRev, h10, ofDigitsRev]
    · have hdiv : n / 10 < 10 ^ f := by
        rw [Nat.div_lt_iff_lt_mul (by norm_num : 0 < 10)]
        calc n < 10 ^ (f + 1) := hn
          _ = 10 ^ f * 10 := by ring
      simp only [toDigitsRev, h10, if_false, ofDigitsRev, ih (n / 10) hdiv]
      exact Nat.mod_add_div n 10

theorem lt_ten_pow_succ_self (n : Nat) : n < 10 ^ (n + 1) := by
  calc n < 2 ^ n := Nat.lt_two_pow n
    _ ≤ 10 ^ n := Nat.pow_le_pow_left (by norm_num) n
    _ ≤ 10 ^ (n + 1) := Nat.pow_le_pow_right (by norm_num) (Nat.le_succ n)

theorem toDigitsRev_self_inj {m n : Nat}
    (h : toDigitsRev (m + 1) m = toDigitsRev (n + 1) n) : m = n := by
  have hm := ofDigitsRev_toDigitsRev (m + 1) m (lt_ten_pow_succ_self m)
  have hn := ofDigitsRev_toDigitsRev (n + 1) n (lt_ten_pow_succ_self n)
  rw [← hm, ← hn, h]

theorem toDigitsRev_lt_ten (f : Nat) :
    ∀ n d : Nat, d ∈ toDigitsRev f n → d < 10 := by
  induction f with
  | zero => intro n d hd; simp [toDigitsRev] at hd
  | succ f ih =>
    intro n d hd
    by_cases h10 : n < 10
    · simp only [toDigitsRev, h10, if_true, List.mem_singleton] at hd
      exact hd ▸ h10
    · simp only [toDigitsRev, h10, if_false, List.mem_cons] at hd
      rcases hd with hd | hd
      · exact hd ▸ Nat.mod_lt n (by norm_num)
      · exact ih (n / 10) d hd

theorem digitChar_inj {d e : Nat} (hd : d < 10) (he : e < 10)
    (h : digitChar d = digitChar e) : d = e := by
  interval_cases d <;> interval_cases e <;> simp_all [digitChar]

theorem map_digitChar_inj :
    ∀ ds es : List Nat, (∀ d ∈ ds, d < 10) → (∀ e ∈ es, e < 10) →
      ds.map digitChar = es.map digitChar → ds = es := by
  intro ds
  induction ds with
  | nil => intro es _ _ h; cases es <;> simp_all
  | cons d ds ih =>
    intro es hds hes h
    cases es with
    | nil => simp at h
    | cons e es =>
      simp only [List.map_cons, List.cons.injEq] at h
      have h1 : d = e :=
        digitChar_inj (hds d (List.mem_cons_self d ds)) (hes e (List.mem_cons_self e es)) h.1
      have h2 : ds = es :=
        ih es (fun x hx => hds x (List.mem_cons_of_mem d hx))
          (fun x hx => hes x (List.mem_cons_of_mem e hx)) h.2
      exact h1 ▸ h2 ▸ rfl

theorem natToDec_injective : Function.Injective natToDec := by
  intro m n h
  have hdata : ((toDigitsRev (m + 1) m).map digitChar).reverse
      = ((toDigitsRev (n + 1) n).map digitChar).reverse := congrArg String.data h
  have hmap : (toDigitsRev (m + 1) m).map digitChar
      = (toDigitsRev (n + 1) n).map digitChar := List.reverse_injective hdata
  exact toDigitsRev_self_inj
    (map_digitChar_inj _ _ (toDigitsRev_lt_ten (m + 1) m) (toDigitsRev_lt_ten (n + 1) n) hmap)

/-! ## Lemmas: per-field injectivity of the hash payload string -/

theorem hashPayload_data_eq {α : Type} (ser : α → String) (i : Nat) (t : String) (d : α)
    (p : String) (n : Nat) :
    (hashPayload ser i t d p n).data =
      (((((natToDec i).data ++ t.data) ++ (ser d).data) ++ p.data) ++ (natToDec n).data) := by
  simp [hashPayload]

theorem hashPayload_index_inj {α : Type} (ser : α → String) {i1 i2 : Nat} {t : String}
    {d : α} {p : String} {n : Nat}
    (h : hashPayload ser i1 t d p n = hashPayload ser i2 t d p n) : i1 = i2 := by
  have hd := congrArg String.data h
  rw [hashPayload_data_eq, hashPayload_data_eq] at hd
  have h1 := List.append_cancel_right (List.append_cancel_right
    (List.append_cancel_right (List.append_cancel_right hd)))
  exact natToDec_injective (String.ext h1)

theorem hashPayload_timestamp_inj {α : Type} (ser : α → String) {i : Nat} {t1 t2 : String}
    {d : α} {p : String} {n : Nat}
    (h : hashPayload ser i t1 d p n = hashPayload ser i t2 d p n) : t1 = t2 := by
  have hd := congrArg String.data h
  rw [hashPayload_data_eq, hashPayload_data_eq] at hd
  have h1 := List.append_cancel_left (List.append_cancel_right
    (List.append_cancel_right (List.append_cancel_right hd)))
  exact String.ext h1

theorem hashPayload_payload_inj {α : Type} {ser : α → String}
    (hser : Function.Injective ser) {i : Nat} {t : String} {d1 d2 : α} {p : String} {n : Nat}
    (h : hashPayload ser i t d1 p n = hashPayload ser i t d2 p n) : d1 = d2 := by
  have hd := congrArg String.data h
  rw [hashPayload_data_eq, hashPayload_data_eq] at hd
  have h1 := List.append_cancel_left (List.append_cancel_right
    (List.append_cancel_right hd))
  exact hser (String.ext h1)

theorem hashPayload_nonce_inj {α : Type} (ser : α → String) {i : Nat} {t : String}
    {d : α} {p : String} {n1 n2 : Nat}
    (h : hashPayload ser i t d p n1 = hashPayload ser i t d p n2) : n1 = n2 := by
  have hd := congrArg String.data h
  rw [hashPayload_data_eq, hashPayload_data_eq] at hd
  exact natToDec_injective (String.ext (List.append_cancel_left hd))

/-! ## Lemmas: the mining loop -/

theorem mineLoop_spec {α : Type} (H : String → String) (ser : α → String) (index : Nat)
    (timestamp : String) (data : α) (previousHash : String) :
    ∀ fuel start nonce h,
      mineLoop H ser index timestamp data previousHash fuel start = some (nonce, h) →
      start < nonce ∧
      h = calculateHash H ser index timestamp data previousHash nonce ∧
      strStartsWith h (zeroRun BLOCKCHAIN_CONFIG.difficulty) = true ∧
      (∀ m, start < m → m < nonce →
        strStartsWith (calculateHash H ser index timestamp data previousHash m)
          (zeroRun BLOCKCHAIN_CONFIG.difficulty) = false) := by
  intro fuel
  induction fuel with
  | zero => intro start nonce h hrun; simp [mineLoop] at hrun
  | succ fuel ih =>
    intro start nonce h hrun
    rw [mineLoop] at hrun
    by_cases hhit :
        strStartsWith (calculateHash H ser index timestamp data previousHash (start + 1))
          (zeroRun BLOCKCHAIN_CONFIG.difficulty) = true
    · simp only [hhit, if_true, Option.some.injEq, Prod.mk.injEq] at hrun
      obtain ⟨hn, hh⟩ := hrun
      subst hn
      refine ⟨Nat.lt_succ_self start, hh.symm, hh ▸ hhit, ?_⟩
      intro m hm1 hm2
      omega
    · rw [Bool.not_eq_true] at hhit
      simp only [hhit, if_false] at hrun
      obtain ⟨h1, h2, h3, h4⟩ := ih (start + 1) nonce h hrun
      refine ⟨Nat.lt_of_succ_lt h1, h2, h3, ?_⟩
      intro m hm1 hm2
      rcases Nat.lt_or_ge (start + 1) m with hgt | hle
      · exact h4 m hgt hm2
      · have hms : m = start + 1 := by omega
        exact hms ▸ hhit

theorem mineBlock_spec {α : Type} (H : String → String) (ser : α → String) (fuel : Nat)
    (previousBlock : Block α) (timestamp : String) (data : α) (b : Block α)
    (h : mineBlock H ser fuel previousBlock timestamp data = some b) :
    b.index = previousBlock.index + 1 ∧
    b.timestamp = timestamp ∧
    b.data = data ∧
    b.previousHash = previousBlock.hash ∧
    1 ≤ b.nonce ∧
    strStartsWith b.hash (zeroRun BLOCKCHAIN_CONFIG.difficulty) = true ∧
    b.hash = recomputeHash H ser b ∧
    (∀ m, 1 ≤ m → m < b.nonce →
      strStartsWith
        (calculateHash H ser (previousBlock.index + 1) timestamp data previousBlock.hash m)
        (zeroRun BLOCKCHAIN_CONFIG.difficulty) = false) := by
  rw [mineBlock] at h
  rcases hrun : mineLoop H ser (previousBlock.index + 1) timestamp data
      previousBlock.hash fuel 0 with _ | nh
  · rw [hrun] at h; exact absurd h (by simp)
  · rw [hrun] at h
    obtain ⟨nonce, hh⟩ := nh
    simp only [Option.some.injEq] at h
    obtain ⟨hpos, hcalc, hhit, hmin⟩ :=
      mineLoop_spec H ser (previousBlock.index + 1) timestamp data previousBlock.hash
        fuel 0 nonce hh hrun
    subst h
    refine ⟨rfl, rfl, rfl, rfl, hpos, hhit, ?_, ?_⟩
    · simpa [recomputeHash] using hcalc
    · intro m hm1 hm2
      exact hmin m hm1 hm2

/-! ## Lemmas: chain validity -/

theorem isValidFrom_append {α : Type} (H : String → String) (ser : α → String) :
    ∀ (xs : List (Block α)) (p b : Block α),
      isValidFrom H ser p (xs ++ [b]) =
        (isValidFrom H ser p xs && checkPair H ser (lastOf p xs) b) := by
  intro xs
  induction xs with
  | nil => intro p b; simp [isValidFrom, lastOf]
  | cons x rest ih =>
    intro p b
    show (checkPair H ser p x && isValidFrom H ser x (rest ++ [b]))
        = ((checkPair H ser p x && isValidFrom H ser x rest) && checkPair H ser (lastOf x rest) b)
    rw [ih x b, Bool.and_assoc]

theorem getLast?_eq_lastOf {α : Type} :
    ∀ (xs : List (Block α)) (p : Block α), (p :: xs).getLast? = some (lastOf p xs) := by
  intro xs
  induction xs with
  | nil => intro p; rfl
  | cons x rest ih => intro p; rw [List.getLast?_cons_cons, ih x]; rfl

theorem addBlock_isValid {α : Type} (H : String → String) (ser : α → String) (fuel : Nat)
    (ts : String) (c c1 : List (Block α)) (d : α)
    (hv : isValid H ser c = true) (h : addBlock H ser fuel ts c d = some c1) :
    isValid H ser c1 = true := by
  rcases c with _ | ⟨p, xs⟩
  · simp [addBlock] at h
  · rw [addBlock, getLast?_eq_lastOf] at h
    have h2 : (match mineBlock H ser fuel (lastOf p xs) ts d with
        | none => (none : Option (List (Block α)))
        | some b => some ((p :: xs) ++ [b])) = some c1 := h
    rcases hmine : mineBlock H ser fuel (lastOf p xs) ts d with _ | b
    · rw [hmine] at h2; exact absurd h2 (by simp)
    · rw [hmine] at h2
      simp only [Option.some.injEq] at h2
      subst h2
      obtain ⟨_, _, _, hprev, _, _, hrec, _⟩ :=
        mineBlock_spec H ser fuel (lastOf p xs) ts d b hmine
      have hv2 : isValidFrom H ser p xs = true := hv
      show isValidFrom H ser p (xs ++ [b]) = true
      rw [isValidFrom_append]
      simp [checkPair, hprev, hrec, hv2]

theorem buildChainAux_isValid {α : Type} (H : String → String) (ser : α → String) :
    ∀ (steps : List (String × α × Nat)) (c c1 : List (Block α)),
      isValid H ser c = true → buildChainAux H ser c steps = some c1 →
      isValid H ser c1 = true := by
  intro steps
  induction steps with
  | nil =>
    intro c c1 hv h
    simp only [buildChainAux, Option.some.injEq] at h
    exact h ▸ hv
  | cons step rest ih =>
    intro c c1 hv h
    obtain ⟨ts, d, fuel⟩ := step
    rw [buildChainAux] at h
    rcases hadd : addBlock H ser fuel ts c d with _ | c2
    · rw [hadd] at h; exact absurd h (by simp)
    · rw [hadd] at h
      exact ih c2 c1 (addBlock_isValid H ser fuel ts c c2 d hv hadd) h

theorem buildChain_isValid {α : Type} (H : String → String) (ser : α → String)
    (g : Block α) (steps : List (String × α × Nat)) (c : List (Block α))
    (h : buildChain H ser g steps = some c) : isValid H ser c = true :=
  buildChainAux_isValid H ser steps [g] c rfl h

theorem isValidFrom_checks {α : Type} (H : String → String) (ser : α → String) :
    ∀ (l : List (Block α)) (p : Block α), isValidFrom H ser p l = true →
      ∀ i, (h : i + 1 < (p :: l).length) →
        checkPair H ser ((p :: l)[i]) ((p :: l)[i + 1]) = true := by
  intro l
  induction l with
  | nil =>
    intro p _ i h
    simp at h
  | cons x rest ih =>
    intro p hv i h
    have hsplit : checkPair H ser p x = true ∧ isValidFrom H ser x rest = true := by
      simpa [isValidFrom, Bool.and_eq_true] using hv
    match i with
    | 0 => simpa using hsplit.1
    | j + 1 =>
      have hlen : j + 1 < (x :: rest).length := by
        simpa [List.length_cons] using h
      simpa using ih x hsplit.2 j hlen

theorem isValid_checks {α : Type} (H : String → String) (ser : α → String)
    (ch : List (Block α)) (hv : isValid H ser ch = true) :
    ∀ i, (h : i + 1 < ch.length) → checkPair H ser (ch[i]) (ch[i + 1]) = true := by
  rcases ch with _ | ⟨p, l⟩
  · intro i h; simp at h
  · exact isValidFrom_checks H ser l p hv

theorem checkPair_true_iff {α : Type} (H : String → String) (ser : α → String)
    (previous current : Block α) :
    checkPair H ser previous current = true ↔
      current.previousHash = previous.hash ∧
      current.hash = recomputeHash H ser current := by
  simp [checkPair, Bool.and_eq_true]

theorem tamper_invalidates {α : Type} (H : String → String) (ser : α → String)
    (hH : Function.Injective H) (hser : Function.Injective ser)
    (ch : List (Block α)) (i : Nat) (m : FieldMut α)
    (hv : isValid H ser ch = true) (hi1 : 1 ≤ i) (hi : i < ch.length)
    (hm : mutChanges (ch[i]) m) :
    isValid H ser (ch.set i (applyMut (ch[i]) m)) = false := by
  rw [← Bool.not_eq_true]
  intro hvt
  obtain ⟨j, hj⟩ : ∃ j, i = j + 1 := ⟨i - 1, by omega⟩
  subst hj
  have hjlen : j + 1 < (ch.set (j + 1) (applyMut (ch[j + 1]) m)).length := by
    rw [List.length_set]; exact hi
  have hcheckm := isValid_checks H ser _ hvt j hjlen
  have hcheck := isValid_checks H ser ch hv j hi
  have hgetj : (ch.set (j + 1) (applyMut (ch[j + 1]) m))[j] = ch[j] :=
    List.getElem_set_of_ne (by omega) _ (by rw [List.length_set]; omega)
  have hgeti : (ch.set (j + 1) (applyMut (ch[j + 1]) m))[j + 1] = applyMut (ch[j + 1]) m := by
    rw [List.getElem_set_self]
  rw [hgetj, hgeti] at hcheckm
  rw [checkPair_true_iff] at hcheck hcheckm
  obtain ⟨hlink, hrec⟩ := hcheck
  obtain ⟨hlinkm, hrecm⟩ := hcheckm
  rcases m with n | t | d | ph | n | hsh
  · exact hm (hashPayload_index_inj ser (hH (calc
      H (hashPayload ser n (ch[j + 1]).timestamp (ch[j + 1]).data
          (ch[j + 1]).previousHash (ch[j + 1]).nonce)
          = (applyMut (ch[j + 1]) (.index n)).hash := hrecm.symm
      _ = (ch[j + 1]).hash := rfl
      _ = H (hashPayload ser (ch[j + 1]).index (ch[j + 1]).timestamp (ch[j + 1]).data
          (ch[j + 1]).previousHash (ch[j + 1]).nonce) := hrec)))
  · exact hm (hashPayload_timestamp_inj ser (hH (calc
      H (hashPayload ser (ch[j + 1]).index t (ch[j + 1]).data
          (ch[j + 1]).previousHash (ch[j + 1]).nonce)
          = (applyMut (ch[j + 1]) (.timestamp t)).hash := hrecm.symm
      _ = (ch[j + 1]).hash := rfl
      _ = H (hashPayload ser (ch[j + 1]).index (ch[j + 1]).timestamp (ch[j + 1]).data
          (ch[j + 1]).previousHash (ch[j + 1]).nonce) := hrec)))
  · exact hm (hashPayload_payload_inj hser (hH (calc
      H (hashPayload ser (ch[j + 1]).index (ch[j + 1]).timestamp d
          (ch[j + 1]).previousHash (ch[j + 1]).nonce)
          = (applyMut (ch[j + 1]) (.data d)).hash := hrecm.symm
      _ = (ch[j + 1]).hash := rfl
      _ = H (hashPayload ser (ch[j + 1]).index (ch[j + 1]).timestamp (ch[j + 1]).data
          (ch[j + 1]).previousHash (ch[j + 1]).nonce) := hrec)))
  · exact hm ((hlinkm.trans hlink.symm : ph = (ch[j + 1]).previousHash))
  · exact hm (hashPayload_nonce_inj ser (hH (calc
      H (hashPayload ser (ch[j + 1]).index (ch[j + 1]).timestamp (ch[j + 1]).data
          (ch[j + 1]).previousHash n)
          = (applyMut (ch[j + 1]) (.nonce n)).hash := hrecm.symm
      _ = (ch[j + 1]).hash := rfl
      _ = H (hashPayload ser (ch[j + 1]).index (ch[j + 1]).timestamp (ch[j + 1]).data
          (ch[j + 1]).previousHash (ch[j + 1]).nonce) := hrec)))
  · exact hm ((hrecm.trans hrec.symm : hsh = (ch[j + 1]).hash))

/-! ## Lemmas: insertion-ordered maps -/

theorem mapGet_mapSet_self {β : Type} :
    ∀ (m : List (String × β)) (k : String) (v : β), mapGet (mapSet m k v) k = some v := by
  intro m
  induction m with
  | nil => intro k v; simp [mapSet, mapGet]
  | cons e rest ih =>
    intro k v
    obtain ⟨k1, v1⟩ := e
    by_cases hk : k1 = k
    · simp [mapSet, hk, mapGet]
    · simp only [mapSet, hk, if_false, mapGet, ih]

theorem mapGet_mapSet_ne {β : Type} :
    ∀ (m : List (String × β)) (k q : String) (v : β), k ≠ q →
      mapGet (mapSet m k v) q = mapGet m q := by
  intro m
  induction m with
  | nil => intro k q v hne; simp [mapSet, mapGet, fun h => hne h]
  | cons e rest ih =>
    intro k q v hne
    obtain ⟨k1, v1⟩ := e
    by_cases hk : k1 = k
    · subst hk
      simp [mapSet, mapGet, fun h => hne h]
    · simp only [mapSet, hk, if_false, mapGet]
      by_cases hq : k1 = q
      · simp [hq]
      · simp only [hq, if_false, ih k q v hne]

theorem mapHas_true_iff {β : Type} :
    ∀ (m : List (String × β)) (k : String),
      mapHas m k = true ↔ k ∈ m.map Prod.fst := by
  intro m
  induction m with
  | nil => intro k; simp [mapHas, mapGet]
  | cons e rest ih =>
    intro k
    obtain ⟨k1, v1⟩ := e
    by_cases hk : k1 = k
    · subst hk; simp [mapHas, mapGet]
    · simp only [mapHas, mapGet, hk, if_false, List.map_cons, List.mem_cons]
      rw [← mapHas]
      rw [ih k]
      constructor
      · intro h; exact Or.inr h
      · intro h
        rcases h with h | h
        · exact absurd h.symm hk
        · exact h

/-! ## Lemmas: the file integrity agent -/

theorem runFileEntries_untouched (now : String) :
    ∀ (files : List (String × Option String)) (baseline : List (String × String)) (p : String),
      p ∉ readableKeys files →
      mapGet (runFileEntries now files baseline).2 p = mapGet baseline p := by
  intro files
  induction files with
  | nil => intro baseline p _; rfl
  | cons e rest ih =>
    intro baseline p hp
    obtain ⟨q, hq⟩ := e
    rcases hq with _ | h
    · exact ih baseline p (by simpa [readableKeys] using hp)
    · have hpq : p ≠ q := by
        intro he
        exact hp (by simp [readableKeys, he])
      have hprest : p ∉ readableKeys rest := by
        intro hmem
        exact hp (by simp [readableKeys] at hmem ⊢; exact Or.inr hmem)
      rw [runFileEntries]
      rcases hget : mapGet baseline q with _ | previous
      · simp only [hget]
        rw [ih (mapSet baseline q h) p hprest, mapGet_mapSet_ne baseline q p h (fun x => hpq x.symm)]
      · simp only [hget]
        by_cases heq : previous = h
        · simp only [heq, if_true]
          exact ih baseline p hprest
        · simp only [heq, if_false]
          rw [ih (mapSet baseline q h) p hprest,
            mapGet_mapSet_ne baseline q p h (fun x => hpq x.symm)]

theorem runFileEntries_get_mem (now : String) :
    ∀ (files : List (String × Option String)) (baseline : List (String × String))
      (p h : String), (readableKeys files).Nodup → (p, some h) ∈ files →
      mapGet (runFileEntries now files baseline).2 p = some h := by
  intro files
  induction files with
  | nil => intro baseline p h _ hmem; simp at hmem
  | cons e rest ih =>
    intro baseline p h hnodup hmem
    obtain ⟨q, hq⟩ := e
    rcases List.mem_cons.mp hmem with heq | hmemrest
    · injection heq with h1 h2
      subst h1
      subst h2
      have hnotrest : p ∉ readableKeys rest := by
        have hrk : readableKeys ((p, some h) :: rest) = p :: readableKeys rest := by
          simp [readableKeys]
        rw [hrk] at hnodup
        exact (List.nodup_cons.mp hnodup).1
      rw [runFileEntries]
      rcases hget : mapGet baseline p with _ | previous
      · simp only [hget]
        rw [runFileEntries_untouched now rest (mapSet baseline p h) p hnotrest,
          mapGet_mapSet_self]
      · simp only [hget]
        by_cases heq2 : previous = h
        · simp only [heq2, if_true]
          rw [runFileEntries_untouched now rest baseline p hnotrest, hget, heq2]
        · simp only [heq2, if_false]
          rw [runFileEntries_untouched now rest (mapSet baseline p h) p hnotrest,
            mapGet_mapSet_self]
    · -- the entry is in the tail
      have hnodup2 : (readableKeys rest).Nodup := by
        rcases hq with _ | hqv
        · simpa [readableKeys] using hnodup
        · have hrk : readableKeys ((q, some hqv) :: rest) = q :: readableKeys rest := by
            simp [readableKeys]
          rw [hrk] at hnodup
          exact (List.nodup_cons.mp hnodup).2
      rcases hq with _ | hqv
      · exact ih baseline p h hnodup2 hmemrest
      · rw [runFileEntries]
        rcases hget : mapGet baseline q with _ | previous
        · simp only [hget]
          exact ih (mapSet baseline q hqv) p h hnodup2 hmemrest
        · simp only [hget]
          by_cases heq2 : previous = hqv
          · simp only [heq2, if_true]
            exact ih baseline p h hnodup2 hmemrest
          · simp only [heq2, if_false]
            exact ih (mapSet baseline q hqv) p h hnodup2 hmemrest

theorem runFileEntries_fresh (now : String) :
    ∀ (files : List (String × String)) (baseline : List (String × String)),
      (∀ p h, (p, h) ∈ files → mapGet baseline p = none) →
      (files.map Prod.fst).Nodup →
      (runFileEntries now (files.map (fun e => (e.1, some e.2))) baseline).1 =
        files.map (fun e => fileBaselineEvent now e.1 e.2) := by
  intro files
  induction files with
  | nil => intro baseline _ _; rfl
  | cons e rest ih =>
    intro baseline hfresh hnodup
    obtain ⟨p, h⟩ := e
    have hget : mapGet baseline p = none := hfresh p h (List.mem_cons_self _ _)
    simp only [List.map_cons, runFileEntries, hget]
    have hnodup2 : (rest.map Prod.fst).Nodup := (List.nodup_cons.mp hnodup).2
    have hnotin : p ∉ rest.map Prod.fst := (List.nodup_cons.mp hnodup).1
    have hfresh2 : ∀ q hq, (q, hq) ∈ rest → mapGet (mapSet baseline p h) q = none := by
      intro q hq hmem
      have hpq : p ≠ q := by
        intro he
        exact hnotin (he ▸ List.mem_map.mpr ⟨(q, hq), hmem, rfl⟩)
      rw [mapGet_mapSet_ne baseline p q h hpq]
      exact hfresh q hq (List.mem_cons_of_mem _ hmem)
    rw [ih (mapSet baseline p h) hfresh2 hnodup2]

theorem runFileEntries_error_events (now : String) :
    ∀ (files : List (String × Option String)) (baseline : List (String × String)),
      (runFileEntries now files baseline).1.filter
          (fun e => e.type == "file_integrity_error") =
        (files.filter (fun e => e.2.isNone)).map (fun e => fileErrorEvent now e.1) := by
  intro files
  induction files with
  | nil => intro baseline; rfl
  | cons e rest ih =>
    intro baseline
    obtain ⟨q, hq⟩ := e
    rcases hq with _ | hqv
    · simp only [runFileEntries, List.filter_cons]
      have : (fileErrorEvent now q).type == "file_integrity_error" := by
        simp [fileErrorEvent]
      rw [if_pos this, ih baseline]
      simp
    · rw [runFileEntries]
      rcases hget : mapGet baseline q with _ | previous
      · simp only [hget, List.filter_cons]
        have : ((fileBaselineEvent now q hqv).type == "file_integrity_error") = false := by
          simp [fileBaselineEvent]
        rw [if_neg (by simp [this]), ih (mapSet baseline q hqv)]
        simp
      · simp only [hget]
        by_cases heq : previous = hqv
        · simp only [heq, if_true]
          rw [ih baseline]
          simp
        · simp only [heq, if_false, List.filter_cons]
          have : ((fileChangeEvent now q previous hqv).type == "file_integrity_error") = false := by
            simp [fileChangeEvent]
          rw [if_neg (by simp [this]), ih (mapSet baseline q hqv)]
          simp

/-! ## Injectivity of the demo digest -/

theorem demoH_injective : Function.Injective demoH := by
  intro a b h
  have hd : ("00" : String).data ++ a.data = ("00" : String).data ++ b.data := by
    have h2 := congrArg String.data h
    simpa [demoH, String.data_append] using h2
  exact String.ext (List.append_cancel_left hd)

/-! ## Claim theorems -/

/-- Claim C1: every chain built by a sequence of addBlock calls (any payloads,
timestamps and fuel) passes isValid; and on any valid chain, overwriting any
single stored field (index, timestamp, data, previousHash, nonce, or hash) of
any non-genesis block with a different value makes isValid return false.  The
digest and the payload serialization are assumed injective, the idealized
collision-freeness of SHA-256 and JSON.stringify. -/
theorem addBlock_chains_valid_and_tamper_detected {α : Type}
    (H : String → String) (ser : α → String)
    (hH : Function.Injective H) (hser : Function.Injective ser) :
    (∀ (g : Block α) (steps : List (String × α × Nat)) (ch : List (Block α)),
       buildChain H ser g steps = some ch → isValid H ser ch = true) ∧
    (∀ (ch : List (Block α)) (i : Nat) (m : FieldMut α),
       isValid H ser ch = true → 1 ≤ i → (hi : i < ch.length) → mutChanges (ch[i]) m →
       isValid H ser (ch.set i (applyMut (ch[i]) m)) = false) := by
  constructor
  · intro g steps ch h
    exact buildChain_isValid H ser g steps ch h
  · intro ch i m hv h1 hi hm
    exact tamper_invalidates H ser hH hser ch i m hv h1 hi hm

/-- Witness for C1: the concrete two-step demo chain verifies, and
overwriting the data payload of its block 1 makes verification fail. -/
theorem addBlock_chains_valid_and_tamper_detected_witness :
    isValid demoH natToDec demoChain = true ∧
    isValid demoH natToDec demoTampered = false := by
  have hmain := addBlock_chains_valid_and_tamper_detected demoH natToDec
    demoH_injective natToDec_injective
  have hbuild : buildChain demoH natToDec demoGenesis demoSteps = some demoChain := by rfl
  have hvalid := hmain.1 demoGenesis demoSteps demoChain hbuild
  refine ⟨hvalid, ?_⟩
  have hlen : 1 < demoChain.length := by decide
  have hmut : mutChanges (demoChain.getD 1 demoGenesis) (FieldMut.data 99) := by
    show 99 ≠ (demoChain.getD 1 demoGenesis).data
    decide
  have htamper := hmain.2 demoChain 1 (.data 99) hvalid (le_refl 1) hlen hmut
  have heq : demoTampered
      = demoChain.set 1 (applyMut (demoChain.getD 1 demoGenesis) (.data 99)) := by rfl
  rw [heq]
  exact htamper

/-- Claim C2: for every previous block and payload, a block returned by
mineBlock has index previous.index + 1, the given timestamp and payload,
previousHash equal to previous.hash, a hash whose first difficulty characters
(the fixed process-wide configuration value, 2) are all zero, a nonce found by
incrementing starting at 1 (no smaller candidate from 1 upward qualifies), and
a stored hash exactly equal to the digest recomputed from the stored fields of
the block itself. -/
theorem mineBlock_sealed_block_properties {α : Type} (H : String → String)
    (ser : α → String) (fuel : Nat) (previousBlock : Block α) (timestamp : String)
    (data : α) (b : Block α)
    (h : mineBlock H ser fuel previousBlock timestamp data = some b) :
    b.index = previousBlock.index + 1 ∧
    b.timestamp = timestamp ∧
    b.data = data ∧
    b.previousHash = previousBlock.hash ∧
    1 ≤ b.nonce ∧
    strStartsWith b.hash (zeroRun BLOCKCHAIN_CONFIG.difficulty) = true ∧
    b.hash = recomputeHash H ser b ∧
    (∀ m, 1 ≤ m → m < b.nonce →
      strStartsWith
        (calculateHash H ser (previousBlock.index + 1) timestamp data previousBlock.hash m)
        (zeroRun BLOCKCHAIN_CONFIG.difficulty) = false) :=
  mineBlock_spec H ser fuel previousBlock timestamp data b h

/-- Witness for C2: the demo block mined on top of the demo genesis. -/
theorem mineBlock_sealed_block_properties_witness :
    demoMined.index = demoGenesis.index + 1 ∧
    demoMined.previousHash = demoGenesis.hash ∧
    strStartsWith demoMined.hash (zeroRun BLOCKCHAIN_CONFIG.difficulty) = true ∧
    demoMined.hash = recomputeHash demoH natToDec demoMined := by
  have h := mineBlock_sealed_block_properties demoH natToDec 1 demoGenesis "t1" 5
    demoMined (by rfl)
  exact ⟨h.1, h.2.2.2.1, h.2.2.2.2.2.1, h.2.2.2.2.2.2.1⟩

/-- Claim C10: the validity loop starts at position 1 and never recomputes
the genesis hash from the genesis fields: a chain of length 1 is always
reported valid whatever the genesis block contains, and replacing the genesis
block by one with arbitrary other fields but the same stored hash leaves the
result of isValid on the whole chain unchanged. -/
theorem genesis_fields_unchecked {α : Type} (H : String → String) (ser : α → String) :
    (∀ b : Block α, isValid H ser [b] = true) ∧
    (∀ (b0 b1 : Block α) (rest : List (Block α)), b1.hash = b0.hash →
      isValid H ser (b1 :: rest) = isValid H ser (b0 :: rest)) := by
  constructor
  · intro b; rfl
  · intro b0 b1 rest hh
    cases rest with
    | nil => rfl
    | cons x r =>
      show (checkPair H ser b1 x && isValidFrom H ser x r)
          = (checkPair H ser b0 x && isValidFrom H ser x r)
      simp only [checkPair, hh]

/-- Witness for C10: a genesis block with every field except the stored hash
overwritten leaves verification of the demo chain unchanged, and verifies on
its own as a singleton chain. -/
theorem genesis_fields_unchecked_witness :
    isValid demoH natToDec (demoGenesisAltered :: demoChain.tail) =
      isValid demoH natToDec (demoGenesis :: demoChain.tail) ∧
    isValid demoH natToDec [demoGenesisAltered] = true :=
  ⟨(genesis_fields_unchecked demoH natToDec).2 demoGenesis demoGenesisAltered
      demoChain.tail rfl,
   (genesis_fields_unchecked demoH natToDec).1 demoGenesisAltered⟩

/-- Claim C6: draining or sealing with an empty pending queue is a benign
no-op or error result: the timer callback returns the server state unchanged
producing no block, and the POST /mine handler returns the empty-queue error
with the chain unchanged, rather than appending. -/
theorem empty_queue_seal_noop (H : String → String) (ser : LedgerData → String)
    (fuel : Nat) (now : String) (st : ServerState) (h : st.pendingEvents = []) :
    minePendingEventsIfAny H ser fuel now st = some st ∧
    postMine H ser fuel now st = some (.error "No pending events to mine", st) := by
  have hlen : st.pendingEvents.length = 0 := by rw [h]; rfl
  constructor
  · rw [minePendingEventsIfAny, if_pos hlen]
  · rw [postMine, if_pos hlen]

/-- Witness for C6: the fresh demo server state has an empty queue; both seal
paths leave it unchanged. -/
theorem empty_queue_seal_noop_witness :
    minePendingEventsIfAny demoH demoSer 1 "t" demoState0 = some demoState0 ∧
    postMine demoH demoSer 1 "t" demoState0
      = some (.error "No pending events to mine", demoState0) :=
  empty_queue_seal_noop demoH demoSer 1 "t" demoState0 rfl

/-- Claim C7: from a fresh ledger (genesis chain of length 1), enqueueing one
login_failed event from auth-service and then sealing yields a chain of
length 2 whose block at position 1 has previousHash equal to the genesis
hash and index 1 and carries as payload exactly one event, of type
login_failed; afterwards the pending queue reports count 0. -/
theorem seal_scenario_login_failed (H : String → String) (ser : LedgerData → String)
    (fuel : Nat) (now1 now2 : String)
    (r : Except String (Block LedgerData) × ServerState)
    (h : postMine H ser fuel now2
        ((postEvents now1 demoBody (initialServerState H ser)).2) = some r) :
    r.2.chain.length = 2 ∧
    (r.2.chain.getD 1 (genesisBlock H ser)).previousHash = (genesisBlock H ser).hash ∧
    (r.2.chain.getD 1 (genesisBlock H ser)).index = 1 ∧
    (r.2.chain.getD 1 (genesisBlock H ser)).data = LedgerData.events [loginEvent now1] ∧
    (listPending r.2).1 = 0 := by
  have hq : (postEvents now1 demoBody (initialServerState H ser)).2
      = { chain := [genesisBlock H ser], pendingEvents := [loginEvent now1] } := rfl
  rw [hq] at h
  rw [postMine] at h
  split at h
  · next hcond => exact absurd hcond (by simp)
  · split at h
    · exact absurd h (by simp)
    · next chain1 heq =>
      rw [addBlock.eq_def] at heq
      simp only [List.getLast?_singleton] at heq
      split at heq
      · exact absurd heq (by simp)
      · next b hmine =>
        simp only [Option.some.injEq] at heq
        subst heq
        split at h
        · next hnone => simp at hnone
        · next b2 hlast =>
          simp only [List.getLast?_concat, Option.some.injEq] at hlast
          subst hlast
          simp only [Option.some.injEq] at h
          subst h
          obtain ⟨hidx, hts, hdata, hprev, _⟩ :=
            mineBlock_spec H ser fuel (genesisBlock H ser) now2 _ b hmine
          refine ⟨rfl, ?_, ?_, ?_, rfl⟩
          · simpa using hprev
          · simpa [genesisBlock] using hidx
          · simpa using hdata

/-- Witness for C7: executed on the demo digest, which terminates at the
first nonce. -/
theorem seal_scenario_login_failed_witness :
    demoMineResult.2.chain.length = 2 ∧
    (demoMineResult.2.chain.getD 1 (genesisBlock demoH demoSer)).previousHash
      = (genesisBlock demoH demoSer).hash ∧
    (demoMineResult.2.chain.getD 1 (genesisBlock demoH demoSer)).index = 1 ∧
    (demoMineResult.2.chain.getD 1 (genesisBlock demoH demoSer)).data
      = LedgerData.events [loginEvent "2024-05-01T00:00:00.000Z"] ∧
    (listPending demoMineResult.2).1 = 0 :=
  seal_scenario_login_failed demoH demoSer 1 "2024-05-01T00:00:00.000Z"
    "2024-05-01T00:01:00.000Z" demoMineResult (by rfl)

/-- Helper for claim C8: the details check passed by a valid body. -/
theorem validateEventFields_none_details (body : JsVal)
    (h : (match getField body "details" with
      | none | some .null | some (.obj _) => (none : Option String)
      | some _ => some "Field \"details\", if provided, must be an object") = none) :
    getField body "details" = none ∨ getField body "details" = some .null ∨
      ∃ kvs, getField body "details" = some (.obj kvs) := by
  rcases hdet : getField body "details" with _ | v
  · exact Or.inl rfl
  · rw [hdet] at h
    cases v with
    | str s => exact absurd h (by simp)
    | num n => exact absurd h (by simp)
    | boolean b => exact absurd h (by simp)
    | null => exact Or.inr (Or.inl rfl)
    | obj kvs => exact Or.inr (Or.inr ⟨kvs, rfl⟩)
    | arr elems => exact absurd h (by simp)

/-- Helper for claim C8: field facts guaranteed by a passing validation. -/
theorem validateEventFields_none (body : JsVal) (h : validateEventFields body = none) :
    (∃ s, getField body "type" = some (.str s) ∧ jsTrim s ≠ "") ∧
    (∃ s, getField body "source" = some (.str s) ∧ jsTrim s ≠ "") ∧
    (getField body "details" = none ∨ getField body "details" = some .null ∨
     ∃ kvs, getField body "details" = some (.obj kvs)) := by
  rw [validateEventFields.eq_def] at h
  rcases htype : getField body "type" with _ | v
  · rw [htype] at h; simp at h
  · rw [htype] at h
    cases v with
    | str s =>
      dsimp only at h
      by_cases hts : jsTrim s = ""
      · rw [if_pos hts] at h; simp at h
      · rw [if_neg hts] at h
        refine ⟨⟨s, rfl, hts⟩, ?_⟩
        rcases hsrc : getField body "source" with _ | v2
        · rw [hsrc] at h; simp at h
        · rw [hsrc] at h
          cases v2 with
          | str src =>
            dsimp only at h
            by_cases hss : jsTrim src = ""
            · rw [if_pos hss] at h; simp at h
            · rw [if_neg hss] at h
              refine ⟨⟨src, rfl, hss⟩, ?_⟩
              rcases hsev : getField body "severity" with _ | v3
              · rw [hsev] at h
                rcases hmsg : getField body "message" with _ | v4
                · rw [hmsg] at h
                  exact validateEventFields_none_details body h
                · rw [hmsg] at h
                  cases v4 with
                  | str s4 => exact validateEventFields_none_details body h
                  | num n4 => simp at h
                  | boolean b4 => simp at h
                  | null => exact validateEventFields_none_details body h
                  | obj kvs4 => simp at h
                  | arr e4 => simp at h
              · rw [hsev] at h
                have hnext : (match getField body "message" with
                    | none | some .null | some (.str _) =>
                      (match getField body "details" with
                        | none | some .null | some (.obj _) => (none : Option String)
                        | some _ => some "Field \"details\", if provided, must be an object")
                    | some _ => some "Field \"message\", if provided, must be a string")
                    = none := by
                  cases v3 with
                  | str s3 => exact h
                  | num n3 => simp at h
                  | boolean b3 => simp at h
                  | null => exact h
                  | obj kvs3 => simp at h
                  | arr e3 => simp at h
                rcases hmsg : getField body "message" with _ | v4
                · rw [hmsg] at hnext
                  exact validateEventFields_none_details body hnext
                · rw [hmsg] at hnext
                  cases v4 with
                  | str s4 => exact validateEventFields_none_details body hnext
                  | num n4 => simp at hnext
                  | boolean b4 => simp at hnext
                  | null => exact validateEventFields_none_details body hnext
                  | obj kvs4 => simp at hnext
                  | arr e4 => simp at hnext
          | num n2 => simp at h
          | boolean b2 => simp at h
          | null => simp at h
          | obj kvs2 => simp at h
          | arr e2 => simp at h
    | num n => simp at h
    | boolean b => simp at h
    | null => simp at h
    | obj kvs => simp at h
    | arr elems => simp at h

/-- Helper for claim C8: field facts guaranteed by a passing validation of the
whole body. -/
theorem validateEvent_none_fields (body : JsVal) (h : validateEvent body = none) :
    (∃ s, getField body "type" = some (.str s) ∧ jsTrim s ≠ "") ∧
    (∃ s, getField body "source" = some (.str s) ∧ jsTrim s ≠ "") ∧
    (getField body "details" = none ∨ getField body "details" = some .null ∨
     ∃ kvs, getField body "details" = some (.obj kvs)) := by
  cases body with
  | null => simp [validateEvent] at h
  | str s => simp [validateEvent] at h
  | num n => simp [validateEvent] at h
  | boolean b => simp [validateEvent] at h
  | obj fields => exact validateEventFields_none _ h
  | arr elems => exact validateEventFields_none _ h

/-- Claim C8: the intake boundary accepts a body only when type and source
are non-empty strings (non-empty even after trimming) and details, when
present and non-null, is an object that is not an array; a rejected body
produces a client-visible validation error and leaves the pending queue
unchanged; an accepted event is appended to the queue with severity defaulted
to info and message defaulted to the empty string when those fields are
absent or null. -/
theorem validate_event_boundary :
    (∀ (now : String) (body : JsVal) (st : ServerState) (err : String),
       validateEvent body = some err → postEvents now body st = (.error err, st)) ∧
    (∀ body : JsVal, validateEvent body = none →
       (∃ s, getField body "type" = some (.str s) ∧ s ≠ "") ∧
       (∃ s, getField body "source" = some (.str s) ∧ s ≠ "") ∧
       (getField body "details" = none ∨ getField body "details" = some .null ∨
        ∃ kvs, getField body "details" = some (.obj kvs))) ∧
    (∀ (now : String) (body : JsVal) (st : ServerState) (ev : SEvent)
       (st1 : ServerState), postEvents now body st = (.ok ev, st1) →
       st1.pendingEvents = st.pendingEvents ++ [ev] ∧
       ((getField body "severity" = none ∨ getField body "severity" = some .null) →
         ev.severity = "info") ∧
       ((getField body "message" = none ∨ getField body "message" = some .null) →
         ev.message = "")) := by
  refine ⟨?_, ?_, ?_⟩
  · intro now body st err hval
    simp only [postEvents, hval]
  · intro body hval
    obtain ⟨⟨s, hs, hs2⟩, ⟨src, hsrc, hsrc2⟩, hdet⟩ := validateEvent_none_fields body hval
    refine ⟨⟨s, hs, ?_⟩, ⟨src, hsrc, ?_⟩, hdet⟩
    · intro he
      exact hs2 (by rw [he]; rfl)
    · intro he
      exact hsrc2 (by rw [he]; rfl)
  · intro now body st ev st1 hpost
    rcases hval : validateEvent body with _ | err
    · simp only [postEvents, hval, Prod.mk.injEq, Except.ok.injEq] at hpost
      obtain ⟨hev, hst⟩ := hpost
      subst hev
      subst hst
      refine ⟨rfl, ?_, ?_⟩
      · intro hf
        rcases hf with hf | hf <;> simp [bodyStrFieldOr, hf]
      · intro hf
        rcases hf with hf | hf <;> simp [bodyStrFieldOr, hf]
    · simp only [postEvents, hval] at hpost
      exact absurd hpost (by simp)

/-- Witness for C8: the demo body with a missing source field is rejected
with the queue unchanged; the demo login body is accepted and enqueued with
defaulted severity and message. -/
theorem validate_event_boundary_witness :
    postEvents "2024-05-01T00:00:00.000Z" demoBadBody demoState0
      = (.error "Field \"source\" is required and must be a non-empty string", demoState0) ∧
    demoState1.pendingEvents
      = demoState0.pendingEvents ++ [loginEvent "2024-05-01T00:00:00.000Z"] ∧
    (loginEvent "2024-05-01T00:00:00.000Z").severity = "info" ∧
    (loginEvent "2024-05-01T00:00:00.000Z").message = "" := by
  have hmain := validate_event_boundary
  have haccept := hmain.2.2 "2024-05-01T00:00:00.000Z" demoBody demoState0
    (loginEvent "2024-05-01T00:00:00.000Z") demoState1 rfl
  exact ⟨hmain.1 "2024-05-01T00:00:00.000Z" demoBadBody demoState0 _ rfl,
    haccept.1, haccept.2.1 (Or.inl rfl), haccept.2.2 (Or.inl rfl)⟩

/-- Claim C9: setRoots called with an empty list, or with entries that are
all empty or whitespace-only, is rejected with a validation error and leaves
the configured roots unchanged.  (The setRoots operation itself is modelled
from the spec; see its definition.) -/
theorem setRoots_rejects_empty (cfg : MonitoringConfig) (list : List String)
    (h : list = [] ∨ ∀ r ∈ list, jsTrim r = "") :
    setRoots cfg list = (cfg, some "at least one non-empty root is required") := by
  have hclean : ((list.map jsTrim).filter (fun r => r ≠ "")).length = 0 := by
    rcases h with h | h
    · subst h; rfl
    · have hnil : (list.map jsTrim).filter (fun r => r ≠ "") = [] := by
        rw [List.filter_eq_nil_iff]
        intro a ha
        obtain ⟨r, hr, hra⟩ := List.mem_map.mp ha
        simp [← hra, h r hr]
      rw [hnil]
      rfl
  simp only [setRoots, hclean, if_pos]

/-- Witness for C9: a single whitespace-only entry is rejected and the
shipped INTEGRITY_CONFIG is returned unchanged. -/
theorem setRoots_rejects_empty_witness :
    setRoots INTEGRITY_CONFIG ["   "]
      = (INTEGRITY_CONFIG, some "at least one non-empty root is required") :=
  setRoots_rejects_empty INTEGRITY_CONFIG ["   "] (Or.inr (by decide))

/-! ## Small boolean and membership helpers for the agent claims -/

theorem eq_true_of_not_notb {x : Bool} (h : ¬ ((!x) = true)) : x = true := by
  cases x
  · exact absurd rfl h
  · rfl

theorem mem_of_not_notContains {l : List String} {a : String}
    (h : ¬ ((!l.contains a) = true)) : a ∈ l :=
  List.elem_iff.mp (eq_true_of_not_notb h)

theorem readableKeys_map_some (files : List (String × String)) :
    readableKeys (files.map (fun e => (e.1, some e.2))) = files.map Prod.fst := by
  induction files with
  | nil => rfl
  | cons e rest ih =>
    show e.1 :: readableKeys (rest.map (fun e => (e.1, some e.2)))
        = e.1 :: rest.map Prod.fst
    rw [ih]

/-! ## Agent claim theorems -/

/-- Counterexample to claim C3 as stated: on a first successful poll that
sees two files, the file agent emits two file_integrity_baseline events, one
per file, each carrying only that file in the details, not exactly one event
carrying the entire snapshot. -/
theorem file_agent_baseline_not_single_event :
    (runFileIntegrityCheck "t0" [("a", some "h1"), ("b", some "h2")] []).1
      = [fileBaselineEvent "t0" "a" "h1", fileBaselineEvent "t0" "b" "h2"] ∧
    ¬ ((runFileIntegrityCheck "t0" [("a", some "h1"), ("b", some "h2")] []).1.length = 1) :=
  ⟨rfl, by decide⟩

/-- Claim C3 (amended): on a successful poll with an empty baseline, the
network and account agents emit exactly one baseline event with severity info
carrying the entire snapshot in the details, set the baseline to the
snapshot, and emit no diff events; the file agent instead emits exactly one
file_integrity_baseline event (severity info, details carrying that file and
its hash) per readable file in snapshot order, records every file in the
baseline, and emits no change or error events on such a poll. -/
theorem baseline_establishing_poll (now : String) :
    (∀ cur : List (String × PortInfo),
       runNetworkCheck now (some cur) [] = ([netBaselineEvent now (cur.map Prod.snd)], cur)) ∧
    (∀ us ads : List String,
       runAccountCheck now (some us) (some ads) { users := [], admins := [] }
         = ([accBaselineEvent now us ads], { users := us, admins := ads })) ∧
    (∀ files : List (String × String), (files.map Prod.fst).Nodup →
       (runFileIntegrityCheck now (files.map (fun e => (e.1, some e.2))) []).1
         = files.map (fun e => fileBaselineEvent now e.1 e.2) ∧
       (∀ p h, (p, h) ∈ files →
         mapGet (runFileIntegrityCheck now (files.map (fun e => (e.1, some e.2))) []).2 p
           = some h)) := by
  refine ⟨fun cur => rfl, fun us ads => rfl, ?_⟩
  intro files hnodup
  constructor
  · exact runFileEntries_fresh now files [] (fun p h _ => rfl) hnodup
  · intro p h hmem
    have hnodup2 : (readableKeys (files.map (fun e => (e.1, some e.2)))).Nodup := by
      rw [readableKeys_map_some]; exact hnodup
    exact runFileEntries_get_mem now _ [] p h hnodup2
      (List.mem_map.mpr ⟨(p, h), hmem, rfl⟩)

/-- Witness for C3 (amended) at concrete snapshots. -/
theorem baseline_establishing_poll_witness :
    runNetworkCheck "t1" (some [("k1", demoPortOld)]) []
      = ([netBaselineEvent "t1" [demoPortOld]], [("k1", demoPortOld)]) ∧
    runAccountCheck "t1" (some ["alice"]) (some ["root"]) { users := [], admins := [] }
      = ([accBaselineEvent "t1" ["alice"] ["root"]],
         { users := ["alice"], admins := ["root"] }) ∧
    (runFileIntegrityCheck "t1" [("a", some "h1")] []).1
      = [fileBaselineEvent "t1" "a" "h1"] := by
  have hmain := baseline_establishing_poll "t1"
  exact ⟨hmain.1 [("k1", demoPortOld)], hmain.2.1 ["alice"] ["root"],
    (hmain.2.2 [("a", "h1")] (by decide)).1⟩

/-- Counterexample to claim C4 as stated: a successful network poll whose
key set is unchanged but whose fingerprint (owning pid) for a key changed
leaves the stale baseline entry in place, so after the poll the baseline does
not map every snapshot key to its newly observed fingerprint. -/
theorem network_baseline_stale_value :
    (runNetworkCheck "t0" (some [("TCP:0.0.0.0:80", demoPortNew)])
        [("TCP:0.0.0.0:80", demoPortOld)]).2
      = [("TCP:0.0.0.0:80", demoPortOld)] ∧
    mapGet (runNetworkCheck "t0" (some [("TCP:0.0.0.0:80", demoPortNew)])
        [("TCP:0.0.0.0:80", demoPortOld)]).2 "TCP:0.0.0.0:80" = some demoPortOld ∧
    demoPortOld ≠ demoPortNew :=
  ⟨rfl, rfl, by decide⟩

/-- Claim C4 (amended): after a successful poll, the account agent baseline
has exactly the membership of the snapshot; the network agent baseline either
becomes exactly the snapshot or, when no port key was added or removed, is
left unchanged with the same key set as the snapshot (per-key values may be
stale); the file agent baseline maps every readable snapshot key to its newly
observed fingerprint, while keys without a readable snapshot entry keep their
previous baseline value (absent keys are retained, not removed). -/
theorem baseline_after_successful_poll (now : String) :
    (∀ (us ads : List String) (b : AccountsBaseline),
       (∀ u, u ∈ (runAccountCheck now (some us) (some ads) b).2.users ↔ u ∈ us) ∧
       (∀ a, a ∈ (runAccountCheck now (some us) (some ads) b).2.admins ↔ a ∈ ads)) ∧
    (∀ (cur b : List (String × PortInfo)),
       (runNetworkCheck now (some cur) b).2 = cur ∨
       ((runNetworkCheck now (some cur) b).2 = b ∧
        ∀ k, mapHas b k = mapHas cur k)) ∧
    (∀ (files : List (String × Option String)) (b : List (String × String)),
       (∀ p h, (readableKeys files).Nodup → (p, some h) ∈ files →
         mapGet (runFileIntegrityCheck now files b).2 p = some h) ∧
       (∀ p, p ∉ readableKeys files →
         mapGet (runFileIntegrityCheck now files b).2 p = mapGet b p)) := by
  refine ⟨?_, ?_, ?_⟩
  · intro us ads b
    by_cases h0 : b.users.length = 0 ∧ b.admins.length = 0
    · have hr : (runAccountCheck now (some us) (some ads) b).2
          = { users := us, admins := ads } := by
        simp only [runAccountCheck]
        rw [if_pos h0]
      rw [hr]
      exact ⟨fun u => Iff.rfl, fun a => Iff.rfl⟩
    · by_cases hd : (us.filter (fun u => !b.users.contains u)).length = 0 ∧
          (b.users.filter (fun u => !us.contains u)).length = 0 ∧
          (ads.filter (fun a => !b.admins.contains a)).length = 0 ∧
          (b.admins.filter (fun a => !ads.contains a)).length = 0
      · have hr : (runAccountCheck now (some us) (some ads) b).2 = b := by
          simp only [runAccountCheck]
          rw [if_neg h0, if_pos hd]
        rw [hr]
        obtain ⟨h1, h2, h3, h4⟩ := hd
        rw [List.length_eq_zero, List.filter_eq_nil_iff] at h1 h2 h3 h4
        constructor
        · intro u
          exact ⟨fun hu => mem_of_not_notContains (h2 u hu),
            fun hu => mem_of_not_notContains (h1 u hu)⟩
        · intro a
          exact ⟨fun ha => mem_of_not_notContains (h4 a ha),
            fun ha => mem_of_not_notContains (h3 a ha)⟩
      · have hr : (runAccountCheck now (some us) (some ads) b).2
            = { users := us, admins := ads } := by
          simp only [runAccountCheck]
          rw [if_neg h0, if_neg hd]
        rw [hr]
        exact ⟨fun u => Iff.rfl, fun a => Iff.rfl⟩
  · intro cur b
    by_cases hlen : b.length = 0
    · left
      simp [runNetworkCheck, hlen]
    · by_cases hd : ((cur.filter (fun e => !mapHas b e.1)).map Prod.snd).length = 0 ∧
          ((b.filter (fun e => !mapHas cur e.1)).map Prod.snd).length = 0
      · right
        constructor
        · simp [runNetworkCheck, hlen, hd]
        · obtain ⟨h1, h2⟩ := hd
          rw [List.length_map, List.length_eq_zero, List.filter_eq_nil_iff] at h1 h2
          intro k
          cases hck : mapHas cur k with
          | false =>
            cases hbk : mapHas b k with
            | false => rfl
            | true =>
              obtain ⟨e, he, hek⟩ :=
                List.mem_map.mp ((mapHas_true_iff b k).mp hbk)
              have hcur : mapHas cur e.1 = true := eq_true_of_not_notb (h2 e he)
              rw [hek] at hcur
              rw [hcur] at hck
              exact absurd hck (by simp)
          | true =>
            obtain ⟨e, he, hek⟩ :=
              List.mem_map.mp ((mapHas_true_iff cur k).mp hck)
            have hb : mapHas b e.1 = true := eq_true_of_not_notb (h1 e he)
            rw [hek] at hb
            rw [hb]
      · left
        have hr : runNetworkCheck now (some cur) b
            = ([netChangeEvent now ((cur.filter (fun e => !mapHas b e.1)).map Prod.snd)
                ((b.filter (fun e => !mapHas cur e.1)).map Prod.snd)], cur) := by
          simp only [runNetworkCheck]
          rw [if_neg hlen, if_neg hd]
        rw [hr]
  · intro files b
    exact ⟨fun p h hnodup hmem => runFileEntries_get_mem now files b p h hnodup hmem,
      fun p hp => runFileEntries_untouched now files b p hp⟩

/-- Witness for C4 (amended) at concrete snapshots: the account baseline
matches the snapshot membership, the first network poll adopts the snapshot,
and the file agent records the new hash while retaining an absent key. -/
theorem baseline_after_successful_poll_witness :
    ("alice" ∈ (runAccountCheck "t1" (some ["alice"]) (some ["root"])
        { users := [], admins := [] }).2.users ↔ "alice" ∈ ["alice"]) ∧
    (runNetworkCheck "t1" (some [("k1", demoPortOld)]) []).2 = [("k1", demoPortOld)] ∧
    mapGet (runFileIntegrityCheck "t1" [("a", some "h1")] [("old", "h9")]).2 "a"
      = some "h1" ∧
    mapGet (runFileIntegrityCheck "t1" [("a", some "h1")] [("old", "h9")]).2 "old"
      = some "h9" := by
  have hmain := baseline_after_successful_poll "t1"
  refine ⟨(hmain.1 ["alice"] ["root"] { users := [], admins := [] }).1 "alice", ?_, ?_, ?_⟩
  · rcases hmain.2.1 [("k1", demoPortOld)] [] with h | h
    · exact h
    · exact absurd h.1 (by decide)
  · exact (hmain.2.2 [("a", some "h1")] [("old", "h9")]).1 "a" "h1" (by decide) (by decide)
  · exact (hmain.2.2 [("a", some "h1")] [("old", "h9")]).2 "old" (by decide)

/-- Counterexample to claim C5 as stated: a poll that finds two unreadable
files emits two file_integrity_error events, not a single one. -/
theorem file_agent_error_not_single :
    (runFileIntegrityCheck "t0" [("a", none), ("b", none)] []).1
      = [fileErrorEvent "t0" "a", fileErrorEvent "t0" "b"] ∧
    ¬ ((runFileIntegrityCheck "t0" [("a", none), ("b", none)] []).1.length = 1) :=
  ⟨rfl, by decide⟩

/-- Claim C5 (amended): when snapshot collection fails, the network and
account agents emit exactly one check-error event (severity high, empty
details) and leave their baseline completely unchanged; the file agent emits
one file_integrity_error event (severity high) per unreadable file, in
snapshot order, and the baseline entry of every key without a readable
snapshot entry is left untouched; a collection failure is never fatal and
never clears historical baseline state. -/
theorem collection_failure_error_events (now : String) :
    (∀ b : List (String × PortInfo),
       runNetworkCheck now none b = ([netErrorEvent now], b)) ∧
    (∀ (users admins : Option (List String)) (b : AccountsBaseline),
       users = none ∨ admins = none →
       runAccountCheck now users admins b = ([accErrorEvent now], b)) ∧
    (∀ (files : List (String × Option String)) (b : List (String × String)),
       (runFileIntegrityCheck now files b).1.filter
           (fun e => e.type == "file_integrity_error")
         = (files.filter (fun e => e.2.isNone)).map (fun e => fileErrorEvent now e.1) ∧
       (∀ p, p ∉ readableKeys files →
         mapGet (runFileIntegrityCheck now files b).2 p = mapGet b p)) := by
  refine ⟨fun b => rfl, ?_, ?_⟩
  · intro users admins b h
    rcases h with h | h
    · subst h; cases admins <;> rfl
    · subst h; cases users <;> rfl
  · intro files b
    exact ⟨runFileEntries_error_events now files b,
      fun p hp => runFileEntries_untouched now files b p hp⟩

/-- Witness for C5 (amended) at concrete failing snapshots. -/
theorem collection_failure_error_events_witness :
    runNetworkCheck "t1" none [("k1", demoPortOld)]
      = ([netErrorEvent "t1"], [("k1", demoPortOld)]) ∧
    runAccountCheck "t1" none (some ["root"]) { users := ["alice"], admins := [] }
      = ([accErrorEvent "t1"], { users := ["alice"], admins := [] }) ∧
    (runFileIntegrityCheck "t1" [("a", none)] [("a", "h0")]).1.filter
        (fun e => e.type == "file_integrity_error")
      = [fileErrorEvent "t1" "a"] ∧
    mapGet (runFileIntegrityCheck "t1" [("a", none)] [("a", "h0")]).2 "a" = some "h0" := by
  have hmain := collection_failure_error_events "t1"
  refine ⟨hmain.1 [("k1", demoPortOld)],
    hmain.2.1 none (some ["root"]) { users := ["alice"], admins := [] } (Or.inl rfl),
    ?_, ?_⟩
  · exact (hmain.2.2 [("a", none)] [("a", "h0")]).1
  · exact (hmain.2.2 [("a", none)] [("a", "h0")]).2 "a" (by decide)

end NodeChain
